import Mathlib

/-!
Verification of the accounts_manager payments engine.

The development shallowly embeds the core of the engine
(src/types.rs and src/engine.rs) in Lean:
exact decimal amounts (rust_decimal Decimal) become Rat,
the two HashMaps (client id to ClientAccount, tx id to StoredTransaction)
become functions from Nat to Option, and each handler of
PaymentsEngine becomes a pure state-to-state function obtained by
transcribing the Rust method body.  Client ids (u16) and tx ids (u32)
are modelled as Nat: no claim depends on their bit width and no
arithmetic is performed on them.
-/

namespace AccountsManager

/-- Transaction kinds, from the TransactionType enum in src/types.rs. -/
inductive TransactionType where
  | deposit
  | withdrawal
  | dispute
  | resolve
  | chargeback
deriving DecidableEq, Repr

/-- One input event, from the TransactionRecord struct in src/types.rs.
The amount is optional: dispute, resolve and chargeback rows carry none. -/
structure TransactionRecord where
  type : TransactionType
  client : Nat
  tx : Nat
  amount : Option Rat
deriving DecidableEq, Repr

/-- Ledger metadata stored for each deposit, from the StoredTransaction
struct in src/types.rs. -/
structure StoredTransaction where
  client : Nat
  amount : Rat
  under_dispute : Bool
deriving DecidableEq, Repr

/-- Per-client account record, from the ClientAccount struct in
src/types.rs. -/
structure ClientAccount where
  available : Rat
  held : Rat
  total : Rat
  locked : Bool
deriving DecidableEq, Repr

/-- ClientAccount::new in src/types.rs. -/
def ClientAccount.new : ClientAccount :=
  { available := 0, held := 0, total := 0, locked := false }

/-- ClientAccount::deposit in src/types.rs. -/
def ClientAccount.deposit (a : ClientAccount) (amount : Rat) : ClientAccount :=
  { a with available := a.available + amount, total := a.total + amount }

/-- ClientAccount::withdraw in src/types.rs; the Bool is the Rust return
value (the engine discards it). -/
def ClientAccount.withdraw (a : ClientAccount) (amount : Rat) :
    ClientAccount × Bool :=
  if a.available ≥ amount then
    ({ a with available := a.available - amount, total := a.total - amount },
     true)
  else
    (a, false)

/-- ClientAccount.hold in src/types.rs. -/
def ClientAccount.hold (a : ClientAccount) (amount : Rat) : ClientAccount :=
  { a with available := a.available - amount, held := a.held + amount }

/-- ClientAccount.release in src/types.rs. -/
def ClientAccount.release (a : ClientAccount) (amount : Rat) : ClientAccount :=
  { a with held := a.held - amount, available := a.available + amount }

/-- ClientAccount.chargeback in src/types.rs. -/
def ClientAccount.chargeback (a : ClientAccount) (amount : Rat) : ClientAccount :=
  { a with held := a.held - amount, total := a.total - amount, locked := true }

/-- The engine state, from the PaymentsEngine struct in src/engine.rs:
the Account Store and the Transaction Ledger. -/
structure PaymentsEngine where
  clients : Nat → Option ClientAccount
  transactions : Nat → Option StoredTransaction

/-- PaymentsEngine::new in src/engine.rs: both maps empty. -/
def PaymentsEngine.new : PaymentsEngine :=
  { clients := fun _ => none, transactions := fun _ => none }

/-- Functional update of a map, modelling HashMap::insert (and the write
performed through entry().or_insert_with / get_mut). -/
def updateMap {α : Type} (m : Nat → Option α) (k : Nat) (v : α) :
    Nat → Option α :=
  fun k2 => if k2 = k then some v else m k2

/-- PaymentsEngine::handle_deposit in src/engine.rs.  The Rust code first
runs entry(client).or_insert_with(ClientAccount::new); a freshly inserted
account is unlocked, so the early return on a locked account can only fire
when the account already existed, and the state is then unchanged. -/
def handle_deposit (s : PaymentsEngine) (r : TransactionRecord) :
    PaymentsEngine :=
  match r.amount with
  | none => s
  | some amount =>
    let account := (s.clients r.client).getD ClientAccount.new
    if account.locked then
      s
    else
      { clients := updateMap s.clients r.client (account.deposit amount),
        transactions := updateMap s.transactions r.tx
          { client := r.client, amount := amount, under_dispute := false } }

/-- PaymentsEngine::handle_withdrawal in src/engine.rs.  As in the source,
the account is created by or_insert_with even when the withdrawal then
fails for insufficient funds. -/
def handle_withdrawal (s : PaymentsEngine) (r : TransactionRecord) :
    PaymentsEngine :=
  match r.amount with
  | none => s
  | some amount =>
    let account := (s.clients r.client).getD ClientAccount.new
    if account.locked then
      s
    else
      { s with clients :=
          updateMap s.clients r.client (account.withdraw amount).1 }

/-- PaymentsEngine::handle_dispute in src/engine.rs. -/
def handle_dispute (s : PaymentsEngine) (r : TransactionRecord) :
    PaymentsEngine :=
  match s.transactions r.tx with
  | none => s
  | some stored =>
    if stored.client ≠ r.client then s
    else if stored.under_dispute then s
    else
      match s.clients r.client with
      | none => s
      | some account =>
        if account.locked then s
        else
          { clients := updateMap s.clients r.client
              (account.hold stored.amount),
            transactions := updateMap s.transactions r.tx
              { stored with under_dispute := true } }

/-- PaymentsEngine::handle_resolve in src/engine.rs. -/
def handle_resolve (s : PaymentsEngine) (r : TransactionRecord) :
    PaymentsEngine :=
  match s.transactions r.tx with
  | none => s
  | some stored =>
    if stored.client ≠ r.client then s
    else if !stored.under_dispute then s
    else
      match s.clients r.client with
      | none => s
      | some account =>
        if account.locked then s
        else
          { clients := updateMap s.clients r.client
              (account.release stored.amount),
            transactions := updateMap s.transactions r.tx
              { stored with under_dispute := false } }

/-- PaymentsEngine::handle_chargeback in src/engine.rs. -/
def handle_chargeback (s : PaymentsEngine) (r : TransactionRecord) :
    PaymentsEngine :=
  match s.transactions r.tx with
  | none => s
  | some stored =>
    if stored.client ≠ r.client then s
    else if !stored.under_dispute then s
    else
      match s.clients r.client with
      | none => s
      | some account =>
        if account.locked then s
        else
          { clients := updateMap s.clients r.client
              (account.chargeback stored.amount),
            transactions := updateMap s.transactions r.tx
              { stored with under_dispute := false } }

/-- PaymentsEngine::process in src/engine.rs: dispatch by event kind. -/
def process (s : PaymentsEngine) (r : TransactionRecord) : PaymentsEngine :=
  match r.type with
  | .deposit => handle_deposit s r
  | .withdrawal => handle_withdrawal s r
  | .dispute => handle_dispute s r
  | .resolve => handle_resolve s r
  | .chargeback => handle_chargeback s r

/-- Run a whole event stream from the empty initial engine state, the
single-pass fold performed by main.rs. -/
def runEvents (events : List TransactionRecord) : PaymentsEngine :=
  events.foldl process PaymentsEngine.new

/-- Every account in the store satisfies the balance equation. -/
def balanced (s : PaymentsEngine) : Prop :=
  ∀ c a, s.clients c = some a → a.available + a.held = a.total

/-- Event sequence driving client 1 into the locked state, leaving a ledger
entry owned by client 1. -/
def lockedStream : List TransactionRecord :=
  [⟨.deposit, 1, 1, some 10⟩, ⟨.dispute, 1, 1, none⟩, ⟨.chargeback, 1, 1, none⟩]

/-- Deposit then a full withdrawal then a dispute of the deposit: the
dispute moves the deposited amount out of available with no coverage check. -/
def negativeStream : List TransactionRecord :=
  [⟨.deposit, 1, 1, some 5⟩, ⟨.withdrawal, 1, 2, some 5⟩,
   ⟨.dispute, 1, 1, none⟩]

theorem updateMap_self {α : Type} (m : Nat → Option α) (k : Nat) (v : α) :
    updateMap m k v k = some v := by
  simp [updateMap]

theorem updateMap_ne {α : Type} (m : Nat → Option α) (k k2 : Nat) (v : α)
    (h : k2 ≠ k) : updateMap m k v k2 = m k2 := by
  simp [updateMap, h]


theorem balanced_new : balanced PaymentsEngine.new := by
  intro c a h
  simp [PaymentsEngine.new] at h

theorem balanced_update (s : PaymentsEngine) (h : balanced s) (c : Nat)
    (a : ClientAccount) (ha : a.available + a.held = a.total)
    (tm : Nat → Option StoredTransaction) :
    balanced ⟨updateMap s.clients c a, tm⟩ := by
  intro c2 a2 h2
  simp only [updateMap] at h2
  by_cases hc : c2 = c
  · simp [hc] at h2
    exact h2 ▸ ha
  · simp [hc] at h2
    exact h c2 a2 h2

theorem balanced_getD (s : PaymentsEngine) (h : balanced s) (c : Nat) :
    ((s.clients c).getD ClientAccount.new).available +
      ((s.clients c).getD ClientAccount.new).held =
      ((s.clients c).getD ClientAccount.new).total := by
  cases hc : s.clients c with
  | none => simp [ClientAccount.new]
  | some a => simpa using h c a hc

theorem balanced_process (s : PaymentsEngine) (r : TransactionRecord)
    (h : balanced s) : balanced (process s r) := by
  cases hr : r.type <;>
    simp only [process, handle_deposit, handle_withdrawal, handle_dispute,
      handle_resolve, handle_chargeback, hr]
  case deposit =>
    cases r.amount with
    | none => exact h
    | some x =>
      simp only
      split
      · exact h
      · refine balanced_update s h _ _ ?_ _
        have := balanced_getD s h r.client
        simp only [ClientAccount.deposit]
        linarith
  case withdrawal =>
    cases r.amount with
    | none => exact h
    | some x =>
      simp only
      split
      · exact h
      · refine balanced_update s h _ _ ?_ _
        have := balanced_getD s h r.client
        simp only [ClientAccount.withdraw]
        split <;> simp <;> linarith
  case dispute =>
    cases ht : s.transactions r.tx with
    | none => exact h
    | some stored =>
      simp only
      split
      · exact h
      · split
        · exact h
        · cases hc : s.clients r.client with
          | none => exact h
          | some account =>
            simp only
            split
            · exact h
            · refine balanced_update s h _ _ ?_ _
              have := h r.client account hc
              simp only [ClientAccount.hold]
              linarith
  case resolve =>
    cases ht : s.transactions r.tx with
    | none => exact h
    | some stored =>
      simp only
      split
      · exact h
      · split
        · exact h
        · cases hc : s.clients r.client with
          | none => exact h
          | some account =>
            simp only
            split
            · exact h
            · refine balanced_update s h _ _ ?_ _
              have := h r.client account hc
              simp only [ClientAccount.release]
              linarith
  case chargeback =>
    cases ht : s.transactions r.tx with
    | none => exact h
    | some stored =>
      simp only
      split
      · exact h
      · split
        · exact h
        · cases hc : s.clients r.client with
          | none => exact h
          | some account =>
            simp only
            split
            · exact h
            · refine balanced_update s h _ _ ?_ _
              have := h r.client account hc
              simp only [ClientAccount.chargeback]
              linarith

theorem balanced_foldl (events : List TransactionRecord) :
    ∀ s : PaymentsEngine, balanced s → balanced (events.foldl process s) := by
  induction events with
  | nil => intro s h; exact h
  | cons r rest ih =>
    intro s h
    exact ih (process s r) (balanced_process s r h)

/-- C1: starting from the empty engine state, after processing any event
sequence, every account present in the Account Store satisfies
available + held = total. -/
theorem C1_balance_invariant (events : List TransactionRecord) (c : Nat)
    (a : ClientAccount) (h : (runEvents events).clients c = some a) :
    a.available + a.held = a.total :=
  balanced_foldl events PaymentsEngine.new balanced_new c a h

theorem C1_balance_invariant_witness :
    (runEvents [⟨.deposit, 1, 1, some 5⟩]).clients 1 = some ⟨5, 0, 5, false⟩ ∧
    (5 : Rat) + 0 = 5 :=
  ⟨by with_unfolding_all decide,
   C1_balance_invariant [⟨.deposit, 1, 1, some 5⟩] 1 ⟨5, 0, 5, false⟩
     (by with_unfolding_all decide)⟩


/-- C2 counterexample: in the reachable state where client 1 is locked and
owns ledger entry 1, a deposit by the different, unlocked client 2 reusing
tx 1 overwrites that entry, so the entry does not stay unchanged. -/
theorem C2_counterexample :
    (runEvents lockedStream).clients 1 =
      some { available := 0, held := 0, total := 0, locked := true } ∧
    (runEvents lockedStream).transactions 1 =
      some { client := 1, amount := 10, under_dispute := false } ∧
    (process (runEvents lockedStream)
        ⟨.deposit, 2, 1, some 7⟩).transactions 1 =
      some { client := 2, amount := 7, under_dispute := false } := by
  refine ⟨?_, ?_, ?_⟩ <;> with_unfolding_all decide

/-- C2 amended: once an account is locked, no event changes its fields, and
every ledger entry owned by it stays unchanged unless the event is a deposit
by a different client reusing that entry's tx identifier. -/
theorem C2_locked_account_frozen (s : PaymentsEngine) (c : Nat)
    (a : ClientAccount) (r : TransactionRecord)
    (hc : s.clients c = some a) (hl : a.locked = true) :
    (process s r).clients c = some a ∧
    ∀ t e, s.transactions t = some e → e.client = c →
      (process s r).transactions t = some e ∨
      (r.type = TransactionType.deposit ∧ r.client ≠ c ∧ r.tx = t) := by
  cases hr : r.type
  case deposit =>
    simp only [process, hr, handle_deposit]
    cases r.amount with
    | none => exact ⟨hc, fun t e ht _ => Or.inl ht⟩
    | some x =>
      simp only
      by_cases hrc : r.client = c
      · rw [hrc, hc]
        simp only [Option.getD_some, hl, if_true]
        exact ⟨hc, fun t e ht _ => Or.inl ht⟩
      · split
        · exact ⟨hc, fun t e ht _ => Or.inl ht⟩
        · constructor
          · dsimp only
            rw [updateMap_ne _ _ _ _ (fun h => hrc h.symm)]
            exact hc
          · intro t e ht _
            by_cases htx : t = r.tx
            · exact Or.inr ⟨by trivial, hrc, htx.symm⟩
            · dsimp only
              rw [updateMap_ne _ _ _ _ htx]
              exact Or.inl ht
  case withdrawal =>
    simp only [process, hr, handle_withdrawal]
    cases r.amount with
    | none => exact ⟨hc, fun t e ht _ => Or.inl ht⟩
    | some x =>
      simp only
      by_cases hrc : r.client = c
      · rw [hrc, hc]
        simp only [Option.getD_some, hl, if_true]
        exact ⟨hc, fun t e ht _ => Or.inl ht⟩
      · split
        · exact ⟨hc, fun t e ht _ => Or.inl ht⟩
        · constructor
          · dsimp only
            rw [updateMap_ne _ _ _ _ (fun h => hrc h.symm)]
            exact hc
          · exact fun t e ht _ => Or.inl ht
  case dispute =>
    simp only [process, hr, handle_dispute]
    cases hts : s.transactions r.tx with
    | none => exact ⟨hc, fun t e ht _ => Or.inl ht⟩
    | some stored =>
      simp only
      split
      · exact ⟨hc, fun t e ht _ => Or.inl ht⟩
      · split
        · exact ⟨hc, fun t e ht _ => Or.inl ht⟩
        · cases hca : s.clients r.client with
          | none => exact ⟨hc, fun t e ht _ => Or.inl ht⟩
          | some account =>
            simp only
            split
            · exact ⟨hc, fun t e ht _ => Or.inl ht⟩
            · rename_i hne hdis hlk
              have hclient : stored.client = r.client := not_not.mp hne
              have hrc : r.client ≠ c := by
                intro heq
                rw [heq, hc] at hca
                injection hca with h2
                exact hlk (h2 ▸ hl)
              constructor
              · dsimp only
                rw [updateMap_ne _ _ _ _ (fun h => hrc h.symm)]
                exact hc
              · intro t e ht hec
                by_cases htx : t = r.tx
                · subst htx
                  rw [hts] at ht
                  injection ht with h2
                  subst h2
                  exact absurd (hclient.symm.trans hec) hrc
                · dsimp only
                  rw [updateMap_ne _ _ _ _ htx]
                  exact Or.inl ht
  case resolve =>
    simp only [process, hr, handle_resolve]
    cases hts : s.transactions r.tx with
    | none => exact ⟨hc, fun t e ht _ => Or.inl ht⟩
    | some stored =>
      simp only
      split
      · exact ⟨hc, fun t e ht _ => Or.inl ht⟩
      · split
        · exact ⟨hc, fun t e ht _ => Or.inl ht⟩
        · cases hca : s.clients r.client with
          | none => exact ⟨hc, fun t e ht _ => Or.inl ht⟩
          | some account =>
            simp only
            split
            · exact ⟨hc, fun t e ht _ => Or.inl ht⟩
            · rename_i hne hdis hlk
              have hclient : stored.client = r.client := not_not.mp hne
              have hrc : r.client ≠ c := by
                intro heq
                rw [heq, hc] at hca
                injection hca with h2
                exact hlk (h2 ▸ hl)
              constructor
              · dsimp only
                rw [updateMap_ne _ _ _ _ (fun h => hrc h.symm)]
                exact hc
              · intro t e ht hec
                by_cases htx : t = r.tx
                · subst htx
                  rw [hts] at ht
                  injection ht with h2
                  subst h2
                  exact absurd (hclient.symm.trans hec) hrc
                · dsimp only
                  rw [updateMap_ne _ _ _ _ htx]
                  exact Or.inl ht
  case chargeback =>
    simp only [process, hr, handle_chargeback]
    cases hts : s.transactions r.tx with
    | none => exact ⟨hc, fun t e ht _ => Or.inl ht⟩
    | some stored =>
      simp only
      split
      · exact ⟨hc, fun t e ht _ => Or.inl ht⟩
      · split
        · exact ⟨hc, fun t e ht _ => Or.inl ht⟩
        · cases hca : s.clients r.client with
          | none => exact ⟨hc, fun t e ht _ => Or.inl ht⟩
          | some account =>
            simp only
            split
            · exact ⟨hc, fun t e ht _ => Or.inl ht⟩
            · rename_i hne hdis hlk
              have hclient : stored.client = r.client := not_not.mp hne
              have hrc : r.client ≠ c := by
                intro heq
                rw [heq, hc] at hca
                injection hca with h2
                exact hlk (h2 ▸ hl)
              constructor
              · dsimp only
                rw [updateMap_ne _ _ _ _ (fun h => hrc h.symm)]
                exact hc
              · intro t e ht hec
                by_cases htx : t = r.tx
                · subst htx
                  rw [hts] at ht
                  injection ht with h2
                  subst h2
                  exact absurd (hclient.symm.trans hec) hrc
                · dsimp only
                  rw [updateMap_ne _ _ _ _ htx]
                  exact Or.inl ht

theorem C2_locked_account_frozen_witness :
    (process (runEvents lockedStream) ⟨.dispute, 1, 1, none⟩).clients 1 =
      some { available := 0, held := 0, total := 0, locked := true } ∧
    ((process (runEvents lockedStream) ⟨.dispute, 1, 1, none⟩).transactions 1 =
        some { client := 1, amount := 10, under_dispute := false } ∨
      (TransactionType.dispute = TransactionType.deposit ∧
        (1 : Nat) ≠ 1 ∧ (1 : Nat) = 1)) :=
  have h := C2_locked_account_frozen (runEvents lockedStream) 1
    { available := 0, held := 0, total := 0, locked := true }
    ⟨.dispute, 1, 1, none⟩ (by with_unfolding_all decide) rfl
  ⟨h.1, h.2 1 { client := 1, amount := 10, under_dispute := false }
    (by with_unfolding_all decide) rfl⟩

/-- C3 counterexample: a dispute that references an unknown client does not
create an account for it; the store still has no entry for client 1. -/
theorem C3_counterexample :
    (process PaymentsEngine.new ⟨.dispute, 1, 1, none⟩).clients 1 = none := by
  with_unfolding_all decide

/-- C3 amended: a deposit or withdrawal with an amount present ensures the
client has an account afterwards; dispute, resolve and chargeback never
create an account; an amountless deposit or withdrawal is a complete no-op. -/
theorem C3_account_creation (s : PaymentsEngine) (r : TransactionRecord) :
    ((r.type = TransactionType.deposit ∨ r.type = TransactionType.withdrawal) →
      r.amount.isSome = true →
      ((process s r).clients r.client).isSome = true) ∧
    ((r.type = TransactionType.dispute ∨ r.type = TransactionType.resolve ∨
        r.type = TransactionType.chargeback) →
      ∀ c2, s.clients c2 = none → (process s r).clients c2 = none) ∧
    ((r.type = TransactionType.deposit ∨ r.type = TransactionType.withdrawal) →
      r.amount = none → process s r = s) := by
  refine ⟨?_, ?_, ?_⟩
  · intro hk ha
    rcases hk with h | h <;>
      simp only [process, h, handle_deposit, handle_withdrawal] <;>
      (cases hx : r.amount with
       | none => rw [hx] at ha; cases ha
       | some x =>
         dsimp only
         split
         · rename_i hlk
           cases hsc : s.clients r.client with
           | none =>
             rw [hsc] at hlk
             simp [ClientAccount.new] at hlk
           | some a => simp [hsc]
         · dsimp only
           rw [updateMap_self]
           rfl)
  · intro hk c2 hc2
    rcases hk with h | h | h <;>
      simp only [process, h, handle_dispute, handle_resolve, handle_chargeback] <;>
      (cases hts : s.transactions r.tx with
       | none => exact hc2
       | some stored =>
         dsimp only
         split
         · exact hc2
         · split
           · exact hc2
           · cases hca : s.clients r.client with
             | none => exact hc2
             | some account =>
               dsimp only
               split
               · exact hc2
               · dsimp only
                 rw [updateMap_ne]
                 · exact hc2
                 · intro heq
                   rw [heq, hca] at hc2
                   exact Option.noConfusion hc2)
  · intro hk ha
    rcases hk with h | h <;>
      simp only [process, h, handle_deposit, handle_withdrawal, ha]

theorem C3_account_creation_witness :
    ((process PaymentsEngine.new ⟨.withdrawal, 3, 9, some 4⟩).clients 3).isSome
      = true :=
  (C3_account_creation PaymentsEngine.new ⟨.withdrawal, 3, 9, some 4⟩).1
    (Or.inr rfl) rfl

/-- C4: a withdrawal with amount present on an existing unlocked account
decreases available and total by the amount (leaving held and the ledger
unchanged, and never making available negative) when covered, and leaves the
whole engine state unchanged on insufficient funds. -/
theorem C4_withdrawal_rules (s : PaymentsEngine) (c t : Nat) (x : Rat)
    (a : ClientAccount) (hc : s.clients c = some a) (hl : a.locked = false) :
    (a.available ≥ x →
      (process s ⟨.withdrawal, c, t, some x⟩).clients c =
        some { a with available := a.available - x, total := a.total - x } ∧
      (process s ⟨.withdrawal, c, t, some x⟩).transactions = s.transactions ∧
      0 ≤ a.available - x) ∧
    (a.available < x → process s ⟨.withdrawal, c, t, some x⟩ = s) := by
  constructor
  · intro hge
    simp only [process, handle_withdrawal]
    rw [hc]
    simp only [Option.getD_some, hl, Bool.false_eq_true, if_false,
      ClientAccount.withdraw]
    rw [if_pos hge]
    refine ⟨?_, by trivial, by linarith⟩
    dsimp only
    rw [updateMap_self]
  · intro hlt
    simp only [process, handle_withdrawal]
    rw [hc]
    simp only [Option.getD_some, hl, Bool.false_eq_true, if_false,
      ClientAccount.withdraw]
    rw [if_neg (not_le.mpr hlt)]
    cases s with
    | mk cl tm =>
      simp only
      congr 1
      funext k
      by_cases hk : k = c
      · subst hk
        rw [updateMap_self]
        exact hc.symm
      · rw [updateMap_ne _ _ _ _ hk]

theorem C4_withdrawal_rules_witness :
    (10 : Rat) ≥ 4 ∧
    (process (runEvents [⟨.deposit, 1, 1, some 10⟩])
        ⟨.withdrawal, 1, 2, some 4⟩).clients 1 =
      some { available := 10 - 4, held := 0, total := 10 - 4, locked := false } :=
  ⟨by with_unfolding_all decide,
   ((C4_withdrawal_rules (runEvents [⟨.deposit, 1, 1, some 10⟩]) 1 2 4
      { available := 10, held := 0, total := 10, locked := false }
      (by with_unfolding_all decide) rfl).1
      (by with_unfolding_all decide)).1⟩

/-- C5: a chargeback whose preconditions all hold clears the dispute flag,
removes the disputed amount from held and total, leaves available unchanged,
and locks the account. -/
theorem C5_chargeback_success (s : PaymentsEngine) (c t : Nat) (x : Option Rat)
    (a : ClientAccount) (e : StoredTransaction)
    (hc : s.clients c = some a) (hl : a.locked = false)
    (he : s.transactions t = some e) (hec : e.client = c)
    (hd : e.under_dispute = true) :
    (process s ⟨.chargeback, c, t, x⟩).transactions t =
      some { e with under_dispute := false } ∧
    (process s ⟨.chargeback, c, t, x⟩).clients c =
      some { a with held := a.held - e.amount, total := a.total - e.amount,
                    locked := true } := by
  simp only [process, handle_chargeback]
  rw [he]
  dsimp only
  rw [if_neg (not_ne_iff.mpr hec)]
  simp only [hd, Bool.not_true, Bool.false_eq_true, if_false]
  rw [hec, hc]
  dsimp only
  simp only [hl, Bool.false_eq_true, if_false]
  constructor
  · dsimp only
    rw [updateMap_self]
  · dsimp only
    rw [updateMap_self]
    rfl

theorem C5_chargeback_success_witness :
    (process (runEvents [⟨.deposit, 1, 1, some 10⟩, ⟨.dispute, 1, 1, none⟩])
        ⟨.chargeback, 1, 1, none⟩).transactions 1 =
      some { client := 1, amount := 10, under_dispute := false } ∧
    (process (runEvents [⟨.deposit, 1, 1, some 10⟩, ⟨.dispute, 1, 1, none⟩])
        ⟨.chargeback, 1, 1, none⟩).clients 1 =
      some { available := 0, held := 10 - 10, total := 10 - 10, locked := true } :=
  C5_chargeback_success
    (runEvents [⟨.deposit, 1, 1, some 10⟩, ⟨.dispute, 1, 1, none⟩]) 1 1 none
    { available := 0, held := 10, total := 10, locked := false }
    { client := 1, amount := 10, under_dispute := true }
    (by with_unfolding_all decide) rfl
    (by with_unfolding_all decide) rfl rfl

/-- C6: a dispute, resolve or chargeback whose reference checks fail
(unknown tx, wrong client, or, for resolve and chargeback, a transaction not
currently under dispute) leaves the whole engine state unchanged. -/
theorem C6_reference_checks_noop (s : PaymentsEngine) (r : TransactionRecord)
    (hk : r.type = TransactionType.dispute ∨ r.type = TransactionType.resolve ∨
      r.type = TransactionType.chargeback)
    (h : s.transactions r.tx = none ∨
      (∃ e, s.transactions r.tx = some e ∧ e.client ≠ r.client) ∨
      ((r.type = TransactionType.resolve ∨ r.type = TransactionType.chargeback) ∧
        ∃ e, s.transactions r.tx = some e ∧ e.under_dispute = false)) :
    process s r = s := by
  rcases hk with hk | hk | hk
  · simp only [process, hk, handle_dispute]
    rcases h with h1 | ⟨e, he, hne⟩ | ⟨hk2, e, he, hd⟩
    · rw [h1]
    · rw [he]
      dsimp only
      rw [if_pos hne]
    · rcases hk2 with h4 | h4 <;> rw [hk] at h4 <;> cases h4
  · simp only [process, hk, handle_resolve]
    rcases h with h1 | ⟨e, he, hne⟩ | ⟨hk2, e, he, hd⟩
    · rw [h1]
    · rw [he]
      dsimp only
      rw [if_pos hne]
    · rw [he]
      dsimp only
      by_cases hcl : e.client ≠ r.client
      · rw [if_pos hcl]
      · rw [if_neg hcl, hd]
        rfl
  · simp only [process, hk, handle_chargeback]
    rcases h with h1 | ⟨e, he, hne⟩ | ⟨hk2, e, he, hd⟩
    · rw [h1]
    · rw [he]
      dsimp only
      rw [if_pos hne]
    · rw [he]
      dsimp only
      by_cases hcl : e.client ≠ r.client
      · rw [if_pos hcl]
      · rw [if_neg hcl, hd]
        rfl

theorem C6_reference_checks_noop_witness :
    process PaymentsEngine.new ⟨.dispute, 1, 1, none⟩ = PaymentsEngine.new :=
  C6_reference_checks_noop PaymentsEngine.new ⟨.dispute, 1, 1, none⟩
    (Or.inl rfl) (Or.inl rfl)

/-- C7: disputing an already-disputed transaction changes nothing, and
processing the same dispute twice in a row equals processing it once. -/
theorem C7_dispute_idempotent (s : PaymentsEngine) (c t : Nat) (x : Option Rat) :
    (∀ e, s.transactions t = some e → e.under_dispute = true →
      process s ⟨.dispute, c, t, x⟩ = s) ∧
    process (process s ⟨.dispute, c, t, x⟩) ⟨.dispute, c, t, x⟩ =
      process s ⟨.dispute, c, t, x⟩ := by
  have first : ∀ e, s.transactions t = some e → e.under_dispute = true →
      process s ⟨.dispute, c, t, x⟩ = s := by
    intro e he hd
    simp only [process, handle_dispute]
    rw [he]
    dsimp only
    by_cases hcl : e.client ≠ c
    · rw [if_pos hcl]
    · rw [if_neg hcl, if_pos hd]
  refine ⟨first, ?_⟩
  cases hts : s.transactions t with
  | none =>
    have h1 : process s ⟨.dispute, c, t, x⟩ = s := by
      simp only [process, handle_dispute]
      rw [hts]
    rw [h1]
    exact h1
  | some stored =>
    by_cases hne : stored.client ≠ c
    · have h1 : process s ⟨.dispute, c, t, x⟩ = s := by
        simp only [process, handle_dispute]
        rw [hts]
        dsimp only
        rw [if_pos hne]
      rw [h1]
      exact h1
    · by_cases hd : stored.under_dispute = true
      · have h1 := first stored hts hd
        rw [h1]
        exact h1
      · cases hca : s.clients c with
        | none =>
          have h1 : process s ⟨.dispute, c, t, x⟩ = s := by
            simp only [process, handle_dispute]
            rw [hts]
            dsimp only
            rw [if_neg hne, if_neg hd, hca]
          rw [h1]
          exact h1
        | some account =>
          by_cases hlk : account.locked = true
          · have h1 : process s ⟨.dispute, c, t, x⟩ = s := by
              simp only [process, handle_dispute]
              rw [hts]
              dsimp only
              rw [if_neg hne, if_neg hd, hca]
              dsimp only
              rw [if_pos hlk]
            rw [h1]
            exact h1
          · have h1 : process s ⟨.dispute, c, t, x⟩ =
                ⟨updateMap s.clients c (account.hold stored.amount),
                 updateMap s.transactions t
                   { stored with under_dispute := true }⟩ := by
              simp only [process, handle_dispute]
              rw [hts]
              dsimp only
              rw [if_neg hne, if_neg hd, hca]
              dsimp only
              rw [if_neg hlk]
            rw [h1]
            simp only [process, handle_dispute]
            rw [updateMap_self]
            dsimp only
            rw [if_neg hne, if_pos rfl]

theorem C7_dispute_idempotent_witness :
    process (runEvents [⟨.deposit, 1, 1, some 10⟩, ⟨.dispute, 1, 1, none⟩])
        ⟨.dispute, 1, 1, none⟩ =
      runEvents [⟨.deposit, 1, 1, some 10⟩, ⟨.dispute, 1, 1, none⟩] :=
  (C7_dispute_idempotent
      (runEvents [⟨.deposit, 1, 1, some 10⟩, ⟨.dispute, 1, 1, none⟩])
      1 1 none).1
    { client := 1, amount := 10, under_dispute := true }
    (by with_unfolding_all decide) rfl

theorem deposit_sets_entry (s : PaymentsEngine) (c t : Nat) (x : Rat)
    (h : ∀ a, s.clients c = some a → a.locked = false) :
    (process s ⟨.deposit, c, t, some x⟩).transactions t =
      some { client := c, amount := x, under_dispute := false } := by
  simp only [process, handle_deposit]
  cases hsc : s.clients c with
  | none =>
    simp only [Option.getD_none]
    rw [if_neg (by simp [ClientAccount.new])]
    dsimp only
    rw [updateMap_self]
  | some a =>
    have hl := h a hsc
    simp only [Option.getD_some]
    rw [if_neg (by simp [hl])]
    dsimp only
    rw [updateMap_self]

/-- C8: transaction-identifier reuse between two successful deposits is
last-write-wins: after each deposit the ledger entry keyed by the shared tx
holds that deposit's client and amount with the dispute flag clear, so the
second silently overwrites the first. -/
theorem C8_tx_reuse_last_write_wins (s : PaymentsEngine) (c1 c2 t : Nat)
    (x1 x2 : Rat)
    (h1 : ∀ a, s.clients c1 = some a → a.locked = false)
    (h2 : ∀ a, (process s ⟨.deposit, c1, t, some x1⟩).clients c2 = some a →
      a.locked = false) :
    (process s ⟨.deposit, c1, t, some x1⟩).transactions t =
      some { client := c1, amount := x1, under_dispute := false } ∧
    (process (process s ⟨.deposit, c1, t, some x1⟩)
        ⟨.deposit, c2, t, some x2⟩).transactions t =
      some { client := c2, amount := x2, under_dispute := false } :=
  ⟨deposit_sets_entry s c1 t x1 h1,
   deposit_sets_entry (process s ⟨.deposit, c1, t, some x1⟩) c2 t x2 h2⟩

theorem C8_tx_reuse_last_write_wins_witness :
    (process PaymentsEngine.new ⟨.deposit, 1, 1, some 5⟩).transactions 1 =
      some { client := 1, amount := 5, under_dispute := false } ∧
    (process (process PaymentsEngine.new ⟨.deposit, 1, 1, some 5⟩)
        ⟨.deposit, 2, 1, some 7⟩).transactions 1 =
      some { client := 2, amount := 7, under_dispute := false } :=
  have hn1 : PaymentsEngine.new.clients 1 = none := rfl
  have hn2 : (process PaymentsEngine.new ⟨.deposit, 1, 1, some 5⟩).clients 2 =
      none := by with_unfolding_all decide
  C8_tx_reuse_last_write_wins PaymentsEngine.new 1 2 1 5 7
    (fun a h => Option.noConfusion (hn1.symm.trans h))
    (fun a h => Option.noConfusion (hn2.symm.trans h))

/-- C9: the amount field of a dispute, resolve or chargeback event is never
read: processing with some amount gives exactly the same state as with none. -/
theorem C9_amount_not_read (s : PaymentsEngine) (c t : Nat) (x : Rat)
    (ty : TransactionType)
    (hk : ty = TransactionType.dispute ∨ ty = TransactionType.resolve ∨
      ty = TransactionType.chargeback) :
    process s ⟨ty, c, t, some x⟩ = process s ⟨ty, c, t, none⟩ := by
  rcases hk with h | h | h <;> subst h <;> rfl

theorem C9_amount_not_read_witness :
    process PaymentsEngine.new ⟨.dispute, 1, 1, some 5⟩ =
      process PaymentsEngine.new ⟨.dispute, 1, 1, none⟩ :=
  C9_amount_not_read PaymentsEngine.new 1 1 5 TransactionType.dispute
    (Or.inl rfl)


/-- C10: a dispute can drive available strictly below zero while the balance
equation available + held = total still holds. -/
theorem C10_dispute_negative_available :
    ∃ a, (runEvents negativeStream).clients 1 = some a ∧
      a.available < 0 ∧ a.available + a.held = a.total :=
  ⟨{ available := -5, held := 5, total := 0, locked := false },
   by refine ⟨?_, ?_, ?_⟩ <;> with_unfolding_all decide⟩

end AccountsManager
